import Mathlib

-- Shallow embedding of the literal classifier and value codec in src/src/lit.rs.
-- Token text is modelled as List Char for text-level literals and as List Nat
-- (byte values 0..255) for byte-level literals, mirroring how the source code
-- switches from &str to byte slices for byte and byte-string decoding.
-- Every panic / assert failure / unreachable in the source is modelled as
-- Option.none; parse_lit_int distinguishes its own Option result (inner layer)
-- from panics (outer layer).

/-- Mirrors value::byte on &str at char granularity: the character at offset
idx, or a default NUL when looking past the end of the input buffer. -/
def charAt (s : List Char) (idx : Nat) : Char := s.getD idx (Char.ofNat 0)

/-- Mirrors value::byte on byte slices: the byte at offset idx, or 0 past the end. -/
def byteAt (s : List Nat) (idx : Nat) : Nat := s.getD idx 0

/-- Rust char::is_whitespace: the Unicode White_Space property. -/
def rustIsWhitespace (c : Char) : Bool :=
  [9, 10, 11, 12, 13, 32, 0x85, 0xA0, 0x1680,
   0x2000, 0x2001, 0x2002, 0x2003, 0x2004, 0x2005, 0x2006, 0x2007, 0x2008,
   0x2009, 0x200A, 0x2028, 0x2029, 0x202F, 0x205F, 0x3000].contains c.toNat

/-- The hex-digit table shared by backslash_x and backslash_u in the source:
bytes b'0'..b'9', b'a'..b'f', b'A'..b'F' map to their value, anything else
panics (modelled as none). -/
def hexVal (b : Nat) : Option Nat :=
  if 48 ≤ b ∧ b ≤ 57 then some (b - 48)
  else if 97 ≤ b ∧ b ≤ 102 then some (10 + (b - 97))
  else if 65 ≤ b ∧ b ≤ 70 then some (10 + (b - 65))
  else none

/-- backslash_x (char-level instantiation): reads two hex digits, returns the
byte value 0x10*h0 + h1 and the rest of the input; panics (none) when either
of the next two bytes is not a hex digit (a missing byte reads as 0, which is
not a hex digit). -/
def backslash_x (s : List Char) : Option (Nat × List Char) :=
  match s with
  | b0 :: b1 :: rest =>
    match hexVal b0.toNat, hexVal b1.toNat with
    | some h0, some h1 => some (0x10 * h0 + h1, rest)
    | _, _ => none
  | _ => none

/-- backslash_x instantiated at byte slices, as used by the byte and
byte-string decoders. -/
def backslash_x_bytes (s : List Nat) : Option (Nat × List Nat) :=
  match s with
  | b0 :: b1 :: rest =>
    match hexVal b0, hexVal b1 with
    | some h0, some h1 => some (0x10 * h0 + h1, rest)
    | _, _ => none
  | _ => none

/-- The bounded digit loop inside backslash_u: `for _ in 0..6` reading hex
digits into ch, breaking early on a closing brace (which is left in place);
any other byte panics (none). -/
def backslash_u_digits : Nat → Nat → List Char → Option (Nat × List Char)
  | 0, ch, s => some (ch, s)
  | k + 1, ch, s =>
    match s with
    | [] => none
    | c :: rest =>
      match hexVal c.toNat with
      | some d => backslash_u_digits k (0x10 * ch + d) rest
      | none => if c = '}' then some (ch, c :: rest) else none

/-- backslash_u: expects an opening brace, at most six hex digits, a closing
brace, and a code that is a valid Unicode scalar value; panics (none)
otherwise. -/
def backslash_u (s : List Char) : Option (Char × List Char) :=
  match s with
  | c :: rest =>
    if c = '{' then
      match backslash_u_digits 6 0 rest with
      | some (ch, s1) =>
        match s1 with
        | c2 :: s2 =>
          if c2 = '}' then
            if Nat.isValidChar ch then some (Char.ofNat ch, s2) else none
          else none
        | [] => none
      | none => none
    else none
  | [] => none

/-- The main loop of parse_lit_str_cooked, one fuel unit per iteration of the
source's 'outer loop. Each iteration consumes at least one character, so
length + 1 fuel is always enough. The accumulated output is returned on the
closing quote, which must be the last character. -/
def parse_lit_str_cooked_loop : Nat → List Char → Option (List Char)
  | 0, _ => none
  | fuel + 1, s =>
    match s with
    | [] => none
    | c :: rest =>
      if c = '"' then (if rest = [] then some [] else none)
      else if c = '\\' then
        match rest with
        | [] => none
        | b :: rest2 =>
          if b = 'x' then
            match backslash_x rest2 with
            | some (byte, rest3) =>
              if byte ≤ 0x80 then
                (parse_lit_str_cooked_loop fuel rest3).map
                  (fun out => Char.ofNat byte :: out)
              else none
            | none => none
          else if b = 'u' then
            match backslash_u rest2 with
            | some (chr, rest3) =>
              (parse_lit_str_cooked_loop fuel rest3).map (fun out => chr :: out)
            | none => none
          else if b = 'n' then
            (parse_lit_str_cooked_loop fuel rest2).map (fun out => '\n' :: out)
          else if b = 'r' then
            (parse_lit_str_cooked_loop fuel rest2).map (fun out => '\r' :: out)
          else if b = 't' then
            (parse_lit_str_cooked_loop fuel rest2).map (fun out => '\t' :: out)
          else if b = '\\' then
            (parse_lit_str_cooked_loop fuel rest2).map (fun out => '\\' :: out)
          else if b = '0' then
            (parse_lit_str_cooked_loop fuel rest2).map (fun out => Char.ofNat 0 :: out)
          else if b = '\'' then
            (parse_lit_str_cooked_loop fuel rest2).map (fun out => '\'' :: out)
          else if b = '"' then
            (parse_lit_str_cooked_loop fuel rest2).map (fun out => '"' :: out)
          else if b = '\r' ∨ b = '\n' then
            parse_lit_str_cooked_loop fuel (rest2.dropWhile rustIsWhitespace)
          else none
      else if c = '\r' then
        match rest with
        | b :: rest2 =>
          if b = '\n' then
            (parse_lit_str_cooked_loop fuel rest2).map (fun out => '\n' :: out)
          else none
        | [] => none
      else (parse_lit_str_cooked_loop fuel rest).map (fun out => c :: out)

/-- parse_lit_str_cooked: asserts the leading quote, strips it and runs the
decoding loop on the remainder. -/
def parse_lit_str_cooked (s : List Char) : Option (List Char) :=
  match s with
  | c :: rest =>
    if c = '"' then parse_lit_str_cooked_loop (rest.length + 1) rest else none
  | [] => none

/-- parse_lit_str_raw: strips the leading r, counts the run of leading hash
marks, checks the opening quote, the closing quote and the trailing hash run,
and returns the text strictly between the quotes. The final conjunct mirrors
the slice bounds check of s[pounds+1 .. len-pounds-1]. -/
def parse_lit_str_raw (s : List Char) : Option (List Char) :=
  match s with
  | c :: rest =>
    if c = 'r' then
      let pounds := (rest.takeWhile (fun c2 => c2 = '#')).length
      let n := rest.length
      if charAt rest pounds = '"' ∧ charAt rest (n - pounds - 1) = '"' ∧
          (rest.drop (n - pounds)).all (fun c2 => c2 = '#') ∧
          pounds + 1 ≤ n - pounds - 1 then
        some ((rest.drop (pounds + 1)).take (n - pounds - 1 - (pounds + 1)))
      else none
    else none
  | [] => none

/-- parse_lit_str: dispatches on the first byte, cooked for a quote, raw for
an r; anything else is unreachable (none). -/
def parse_lit_str (s : List Char) : Option (List Char) :=
  if charAt s 0 = '"' then parse_lit_str_cooked s
  else if charAt s 0 = 'r' then parse_lit_str_raw s
  else none

/-- The main loop of parse_lit_byte_str_cooked, operating on raw bytes. -/
def parse_lit_byte_str_cooked_loop : Nat → List Nat → Option (List Nat)
  | 0, _ => none
  | fuel + 1, s =>
    match s with
    | [] => none
    | c :: rest =>
      if c = 34 then (if rest = [] then some [] else none)
      else if c = 92 then
        match rest with
        | [] => none
        | b :: rest2 =>
          if b = 120 then
            match backslash_x_bytes rest2 with
            | some (byte, rest3) =>
              (parse_lit_byte_str_cooked_loop fuel rest3).map (fun out => byte :: out)
            | none => none
          else if b = 110 then
            (parse_lit_byte_str_cooked_loop fuel rest2).map (fun out => 10 :: out)
          else if b = 114 then
            (parse_lit_byte_str_cooked_loop fuel rest2).map (fun out => 13 :: out)
          else if b = 116 then
            (parse_lit_byte_str_cooked_loop fuel rest2).map (fun out => 9 :: out)
          else if b = 92 then
            (parse_lit_byte_str_cooked_loop fuel rest2).map (fun out => 92 :: out)
          else if b = 48 then
            (parse_lit_byte_str_cooked_loop fuel rest2).map (fun out => 0 :: out)
          else if b = 39 then
            (parse_lit_byte_str_cooked_loop fuel rest2).map (fun out => 39 :: out)
          else if b = 34 then
            (parse_lit_byte_str_cooked_loop fuel rest2).map (fun out => 34 :: out)
          else if b = 13 ∨ b = 10 then
            parse_lit_byte_str_cooked_loop fuel
              (rest2.dropWhile (fun b2 => rustIsWhitespace (Char.ofNat b2)))
          else none
      else if c = 13 then
        match rest with
        | b :: rest2 =>
          if b = 10 then
            (parse_lit_byte_str_cooked_loop fuel rest2).map (fun out => 10 :: out)
          else none
        | [] => none
      else (parse_lit_byte_str_cooked_loop fuel rest).map (fun out => c :: out)

/-- parse_lit_byte_str_cooked: asserts the leading b and quote bytes, strips
them and runs the byte decoding loop. -/
def parse_lit_byte_str_cooked (s : List Nat) : Option (List Nat) :=
  match s with
  | c0 :: c1 :: rest =>
    if c0 = 98 ∧ c1 = 34 then
      parse_lit_byte_str_cooked_loop (rest.length + 1) rest
    else none
  | _ => none

/-- Byte-level twin of parse_lit_str_raw (34 is the quote, 35 the hash). -/
def parse_lit_str_raw_bytes (s : List Nat) : Option (List Nat) :=
  match s with
  | c :: rest =>
    if c = 114 then
      let pounds := (rest.takeWhile (fun c2 => c2 = 35)).length
      let n := rest.length
      if byteAt rest pounds = 34 ∧ byteAt rest (n - pounds - 1) = 34 ∧
          (rest.drop (n - pounds)).all (fun c2 => c2 = 35) ∧
          pounds + 1 ≤ n - pounds - 1 then
        some ((rest.drop (pounds + 1)).take (n - pounds - 1 - (pounds + 1)))
      else none
    else none
  | [] => none

/-- parse_lit_byte_str_raw: strips the leading b and decodes the rest as a raw
string, keeping the bytes. -/
def parse_lit_byte_str_raw (s : List Nat) : Option (List Nat) :=
  match s with
  | c :: rest => if c = 98 then parse_lit_str_raw_bytes rest else none
  | [] => none

/-- parse_lit_byte_str: asserts the leading b and dispatches on the second
byte, cooked for a quote, raw for an r. -/
def parse_lit_byte_str (s : List Nat) : Option (List Nat) :=
  if byteAt s 0 = 98 then
    if byteAt s 1 = 34 then parse_lit_byte_str_cooked s
    else if byteAt s 1 = 114 then parse_lit_byte_str_raw s
    else none
  else none

/-- parse_lit_byte: asserts the leading b and single quote, decodes exactly
one (possibly escaped) byte, and checks that the next byte is the closing
quote. -/
def parse_lit_byte (s : List Nat) : Option Nat :=
  match s with
  | c0 :: c1 :: rest =>
    if c0 = 98 ∧ c1 = 39 then
      match rest with
      | [] => none
      | b0 :: rest1 =>
        if b0 = 92 then
          match rest1 with
          | [] => none
          | b :: rest2 =>
            if b = 120 then
              match backslash_x_bytes rest2 with
              | some (byte, rest3) => if byteAt rest3 0 = 39 then some byte else none
              | none => none
            else if b = 110 then (if byteAt rest2 0 = 39 then some 10 else none)
            else if b = 114 then (if byteAt rest2 0 = 39 then some 13 else none)
            else if b = 116 then (if byteAt rest2 0 = 39 then some 9 else none)
            else if b = 92 then (if byteAt rest2 0 = 39 then some 92 else none)
            else if b = 48 then (if byteAt rest2 0 = 39 then some 0 else none)
            else if b = 39 then (if byteAt rest2 0 = 39 then some 39 else none)
            else if b = 34 then (if byteAt rest2 0 = 39 then some 34 else none)
            else none
        else if byteAt rest1 0 = 39 then some b0 else none
    else none
  | _ => none

/-- parse_lit_char: asserts the leading single quote, decodes exactly one
(possibly escaped) character, and checks that exactly the closing quote
remains. -/
def parse_lit_char (s : List Char) : Option Char :=
  match s with
  | c0 :: rest =>
    if c0 = '\'' then
      match rest with
      | [] => none
      | b0 :: rest1 =>
        if b0 = '\\' then
          match rest1 with
          | [] => none
          | b :: rest2 =>
            if b = 'x' then
              match backslash_x rest2 with
              | some (byte, rest3) =>
                if byte ≤ 0x80 then
                  (if rest3 = ['\''] then some (Char.ofNat byte) else none)
                else none
              | none => none
            else if b = 'u' then
              match backslash_u rest2 with
              | some (chr, rest3) => if rest3 = ['\''] then some chr else none
              | none => none
            else if b = 'n' then (if rest2 = ['\''] then some '\n' else none)
            else if b = 'r' then (if rest2 = ['\''] then some '\r' else none)
            else if b = 't' then (if rest2 = ['\''] then some '\t' else none)
            else if b = '\\' then (if rest2 = ['\''] then some '\\' else none)
            else if b = '0' then (if rest2 = ['\''] then some (Char.ofNat 0) else none)
            else if b = '\'' then (if rest2 = ['\''] then some '\'' else none)
            else if b = '"' then (if rest2 = ['\''] then some '"' else none)
            else none
        else if rest1 = ['\''] then some b0 else none
    else none
  | [] => none

/-- The digit accumulation loop of parse_lit_int. The outer Option models a
panic (an out-of-base decimal digit), the inner Option is the function's own
checked-arithmetic result: some none models `return None` (overflow, or a
float-only character in base 10). Reaching a character that is no digit of
any base ends the loop and returns the accumulated value. -/
def parse_lit_int_loop (base : Nat) : Nat → List Char → Option (Option Nat)
  | value, [] => some (some value)
  | value, b :: s =>
    if '0' ≤ b ∧ b ≤ '9' then
      if base ≤ b.toNat - 48 then none
      else if 2 ^ 64 ≤ value * base then some none
      else if 2 ^ 64 ≤ value * base + (b.toNat - 48) then some none
      else parse_lit_int_loop base (value * base + (b.toNat - 48)) s
    else if ('a' ≤ b ∧ b ≤ 'f') ∧ 10 < base then
      if base ≤ 10 + (b.toNat - 97) then none
      else if 2 ^ 64 ≤ value * base then some none
      else if 2 ^ 64 ≤ value * base + (10 + (b.toNat - 97)) then some none
      else parse_lit_int_loop base (value * base + (10 + (b.toNat - 97))) s
    else if ('A' ≤ b ∧ b ≤ 'F') ∧ 10 < base then
      if base ≤ 10 + (b.toNat - 65) then none
      else if 2 ^ 64 ≤ value * base then some none
      else if 2 ^ 64 ≤ value * base + (10 + (b.toNat - 65)) then some none
      else parse_lit_int_loop base (value * base + (10 + (b.toNat - 65))) s
    else if b = '_' then parse_lit_int_loop base value s
    else if b = '.' ∧ base = 10 then some none
    else if (b = 'e' ∨ b = 'E') ∧ base = 10 then some none
    else some (some value)

/-- parse_lit_int: detects the base from a 0x / 0o / 0b prefix (else base 10
for a leading decimal digit; anything else is unreachable, modelled none) and
runs the accumulation loop. -/
def parse_lit_int (s : List Char) : Option (Option Nat) :=
  if charAt s 0 = '0' ∧ charAt s 1 = 'x' then parse_lit_int_loop 16 0 (s.drop 2)
  else if charAt s 0 = '0' ∧ charAt s 1 = 'o' then parse_lit_int_loop 8 0 (s.drop 2)
  else if charAt s 0 = '0' ∧ charAt s 1 = 'b' then parse_lit_int_loop 2 0 (s.drop 2)
  else if '0' ≤ charAt s 0 ∧ charAt s 0 ≤ '9' then parse_lit_int_loop 10 0 s
  else none

/-- number_is_float: a dot always means float; a 0x prefix or size suffix
never does; otherwise an e or E does. -/
def number_is_float (value : List Char) : Bool :=
  if value.contains '.' then true
  else if ("0x".toList.isPrefixOf value || "size".toList.isSuffixOf value) then false
  else (value.contains 'e' || value.contains 'E')

/-- number_is_int: not float-shaped and parse_lit_int succeeds. The outer
Option propagates a parse_lit_int panic. -/
def number_is_int (value : List Char) : Option Bool :=
  if number_is_float value then some false
  else (parse_lit_int value).map (fun r => r.isSome)

/-- The Lit enum: each non-Bool variant carries its token text (the Span
component carries no information relevant to the verified properties and is
omitted). -/
inductive Lit : Type
  | str (token : List Char)
  | byteStr (token : List Char)
  | byte (token : List Char)
  | char (token : List Char)
  | int (token : List Char)
  | float (token : List Char)
  | boolLit (value : Bool)
  | verbatim (token : List Char)
  deriving DecidableEq

/-- Lit::new: classification of a token's text by its leading bytes. The
unrecognized-literal panic at the end is modelled as none, as is a panic
propagated out of number_is_int. -/
def Lit.new (value : List Char) : Option Lit :=
  if charAt value 0 = '"' ∨ charAt value 0 = 'r' then some (Lit.str value)
  else if charAt value 0 = 'b' then
    if charAt value 1 = '"' ∨ charAt value 1 = 'r' then some (Lit.byteStr value)
    else if charAt value 1 = '\'' then some (Lit.byte value)
    else none
  else if charAt value 0 = '\'' then some (Lit.char value)
  else if '0' ≤ charAt value 0 ∧ charAt value 0 ≤ '9' then
    match number_is_int value with
    | none => none
    | some true => some (Lit.int value)
    | some false =>
      if number_is_float value then some (Lit.float value)
      else some (Lit.verbatim value)
  else if value = "true".toList then some (Lit.boolLit true)
  else if value = "false".toList then some (Lit.boolLit false)
  else none

/-- The shape of a token appended by the printing module: every literal
variant emits a Literal token node, the boolean variant emits a Term (word)
node. -/
inductive TokenNode : Type
  | literal (text : List Char)
  | term (text : List Char)
  deriving DecidableEq

/-- The raw text carried by an emitted token node. -/
def TokenNode.text : TokenNode → List Char
  | TokenNode.literal t => t
  | TokenNode.term t => t

/-- The ToTokens implementations of the printing module: each variant
re-emits its stored token unchanged as a Literal node, except LitBool, which
emits a Term node spelling true or false. -/
def Lit.toTokens : Lit → TokenNode
  | Lit.str t => TokenNode.literal t
  | Lit.byteStr t => TokenNode.literal t
  | Lit.byte t => TokenNode.literal t
  | Lit.char t => TokenNode.literal t
  | Lit.int t => TokenNode.literal t
  | Lit.float t => TokenNode.literal t
  | Lit.boolLit b => TokenNode.term (if b then "true".toList else "false".toList)
  | Lit.verbatim t => TokenNode.literal t

/-- The digit character for a value below ten. -/
def digitChar (d : Nat) : Char := Char.ofNat (48 + d)

/-- Fuel-indexed most-significant-first decimal rendering; the fuel only
bounds the recursion depth (n itself is always enough). -/
def natToDecAux : Nat → Nat → List Char → List Char
  | 0, _, acc => acc
  | fuel + 1, n, acc =>
    if n < 10 then digitChar n :: acc
    else natToDecAux fuel (n / 10) (digitChar (n % 10) :: acc)

/-- Decimal rendering of a natural number, no sign, no leading zeros (except
for zero itself). -/
def natToDec (n : Nat) : List Char := natToDecAux (n + 1) n []

/-- Decimal rendering of an integer, with a leading minus sign when negative. -/
def intToDec (i : Int) : List Char :=
  if i < 0 then '-' :: natToDec i.natAbs else natToDec i.toNat

/-- Sequential expansion of a per-element escape over a list. -/
def escapeSeq {α β : Type} (f : α → List β) : List α → List β
  | [] => []
  | c :: rest => f c ++ escapeSeq f rest

/-- Modelled from the spec: the escaping performed by the external
proc_macro2::Literal::string constructor is not part of this repository; per
the spec the write path emits Cooked style text for the value. The quote,
backslash and control characters are escaped with the cooked escape table;
every other character is copied through. -/
def escapeCharCooked (c : Char) : List Char :=
  if c = '"' then ['\\', '"']
  else if c = '\\' then ['\\', '\\']
  else if c = '\r' then ['\\', 'r']
  else if c = '\n' then ['\\', 'n']
  else if c = '\t' then ['\\', 't']
  else if c = Char.ofNat 0 then ['\\', '0']
  else [c]

/-- Modelled from the spec: proc_macro2::Literal::string, the cooked string
constructor used by LitStr::new; it wraps the escaped value in quotes. -/
def Literal.string (value : List Char) : List Char :=
  '"' :: escapeSeq escapeCharCooked value ++ ['"']

/-- Modelled from the spec: the per-byte cooked escape used by the external
proc_macro2::Literal::byte_string constructor. -/
def escapeByteCooked (b : Nat) : List Nat :=
  if b = 34 then [92, 34]
  else if b = 92 then [92, 92]
  else if b = 13 then [92, 114]
  else if b = 10 then [92, 110]
  else if b = 9 then [92, 116]
  else if b = 0 then [92, 48]
  else [b]

/-- Modelled from the spec: proc_macro2::Literal::byte_string, the cooked
byte-string constructor used by LitByteStr::new. -/
def Literal.byte_string (value : List Nat) : List Nat :=
  98 :: 34 :: escapeSeq escapeByteCooked value ++ [34]

/-- LitStr::new: the stored token is the cooked text built from the value. -/
def LitStr.new (value : List Char) : List Char := Literal.string value

/-- LitStr::value: decode the stored token text. -/
def LitStr.value (token : List Char) : Option (List Char) := parse_lit_str token

/-- LitByteStr::new: the stored token is the cooked byte text built from the
value. -/
def LitByteStr.new (value : List Nat) : List Nat := Literal.byte_string value

/-- LitByteStr::value: decode the stored token bytes. -/
def LitByteStr.value (token : List Nat) : Option (List Nat) := parse_lit_byte_str token

/-- The IntSuffix enum. -/
inductive IntSuffix : Type
  | i8
  | i16
  | i32
  | i64
  | i128
  | isize
  | u8
  | u16
  | u32
  | u64
  | u128
  | usize
  | nosuffix
  deriving DecidableEq

/-- Rust's `as` cast from u64 to a signed w-bit integer: truncate to w bits
and reinterpret in two's complement. -/
def asSigned (w : Nat) (v : Nat) : Int :=
  if v % 2 ^ w < 2 ^ (w - 1) then ((v % 2 ^ w : Nat) : Int)
  else ((v % 2 ^ w : Nat) : Int) - 2 ^ w

/-- Modelled from the spec: the external proc_macro2::Literal typed integer
constructors (Literal::i8 .. Literal::usize) and value::to_literal are not
part of this repository; per the spec the integer constructors synthesize the
decimal text implied by the requested suffix's width and signedness, the
value followed by the suffix spelling. -/
def Literal.intText (n : Int) (suffix : List Char) : List Char :=
  intToDec n ++ suffix

/-- LitInt::new: the stored token text per suffix. The casts (value as i8,
value as u8, ...) are the source's; isize and usize are modelled at the
64-bit pointer width. IntSuffix::None uses Literal::integer(value as i64),
which prints the signed value with no suffix. -/
def LitInt.new (value : Nat) (suffix : IntSuffix) : List Char :=
  match suffix with
  | IntSuffix.isize => Literal.intText (asSigned 64 value) "isize".toList
  | IntSuffix.i8 => Literal.intText (asSigned 8 value) "i8".toList
  | IntSuffix.i16 => Literal.intText (asSigned 16 value) "i16".toList
  | IntSuffix.i32 => Literal.intText (asSigned 32 value) "i32".toList
  | IntSuffix.i64 => Literal.intText (asSigned 64 value) "i64".toList
  | IntSuffix.i128 => Literal.intText ((value : Int)) "i128".toList
  | IntSuffix.usize => Literal.intText ((value : Int)) "usize".toList
  | IntSuffix.u8 => Literal.intText ((value % 2 ^ 8 : Nat) : Int) "u8".toList
  | IntSuffix.u16 => Literal.intText ((value % 2 ^ 16 : Nat) : Int) "u16".toList
  | IntSuffix.u32 => Literal.intText ((value % 2 ^ 32 : Nat) : Int) "u32".toList
  | IntSuffix.u64 => Literal.intText ((value : Int)) "u64".toList
  | IntSuffix.u128 => Literal.intText ((value : Int)) "u128".toList
  | IntSuffix.nosuffix => Literal.intText (asSigned 64 value) []

/-- LitInt::value: parse_lit_int on the stored text, with unwrap; a panic
inside parse_lit_int or an unwrap of None both surface as none. -/
def LitInt.value (token : List Char) : Option Nat :=
  match parse_lit_int token with
  | some (some v) => some v
  | _ => none

/-- Modelled from the spec: the external token cursor offers a literal probe
and a word probe; a unit is a literal token, a word token, or some other
token tree. -/
inductive CursorTok : Type
  | literal (text : List Char)
  | term (text : List Char)
  | other
  deriving DecidableEq

/-- Modelled from the spec: Cursor::literal, successful exactly when the next
unit is a literal token, consuming it. -/
def cursorLiteral : List CursorTok → Option (List Char × List CursorTok)
  | CursorTok.literal t :: rest => some (t, rest)
  | _ => none

/-- Modelled from the spec: Cursor::term, successful exactly when the next
unit is a word token, consuming it. -/
def cursorTerm : List CursorTok → Option (List Char × List CursorTok)
  | CursorTok.term t :: rest => some (t, rest)
  | _ => none

/-- A PResult: ok carries the parsed value and the rest of the cursor; err is
the recoverable parse_error, which carries no cursor, so the caller resumes
at the original position. -/
inductive PResult (α : Type) : Type
  | ok (val : α)
  | err
  deriving DecidableEq

/-- The Synom parse impl for Lit: probe for a literal and classify it (a
classification panic propagates, modelled none); otherwise probe for a word
and accept exactly true or false; otherwise parse_error. -/
def Lit.parse (input : List CursorTok) : Option (PResult (Lit × List CursorTok)) :=
  match cursorLiteral input with
  | some (lit, rest) => (Lit.new lit).map (fun l => PResult.ok (l, rest))
  | none =>
    match cursorTerm input with
    | some (t, rest) =>
      if t = "true".toList then some (PResult.ok (Lit.boolLit true, rest))
      else if t = "false".toList then some (PResult.ok (Lit.boolLit false, rest))
      else some PResult.err
    | none => some PResult.err

/-- The numeric value of a list of hex digit characters, most significant
first (statement vocabulary for the backslash_u characterization). -/
def hexDigitsVal (ds : List Char) : Nat :=
  ds.foldl (fun a c => 0x10 * a + (hexVal c.toNat).getD 0) 0

-- Helper lemmas ------------------------------------------------------------

theorem charAt_cons_zero (a : Char) (l : List Char) : charAt (a :: l) 0 = a := rfl

theorem charAt_cons_succ (a : Char) (l : List Char) (i : Nat) :
    charAt (a :: l) (i + 1) = charAt l i := rfl

theorem byteAt_cons_zero (a : Nat) (l : List Nat) : byteAt (a :: l) 0 = a := rfl

theorem byteAt_cons_succ (a : Nat) (l : List Nat) (i : Nat) :
    byteAt (a :: l) (i + 1) = byteAt l i := rfl

/-- A decimal-digit character is none of the leading bytes of the string,
byte, byte-string or char branches of the classifier. -/
theorem digit_head_branches {c : Char} (h1 : '0' ≤ c) (h2 : c ≤ '9') :
    ¬(c = '"' ∨ c = 'r') ∧ c ≠ 'b' ∧ c ≠ '\'' := by
  refine ⟨?_, ?_, ?_⟩
  · rintro (rfl | rfl)
    · exact absurd h1 (by decide)
    · exact absurd h2 (by decide)
  · rintro rfl
    exact absurd h2 (by decide)
  · rintro rfl
    exact absurd h1 (by decide)

/-- C1: classifying any token text stores the text unchanged, and re-emitting
the classified literal reproduces the text exactly; the Boolean variant
re-emits through the canonical true/false spelling (which is exactly the text
that classified to it). -/
theorem claim_C1_roundtrip (t : List Char) (l : Lit) (h : Lit.new t = some l) :
    (Lit.toTokens l).text = t := by
  unfold Lit.new at h
  repeat' split at h
  all_goals try (injection h with h; subst h)
  all_goals simp_all [Lit.toTokens, TokenNode.text]

theorem claim_C1_witness :
    (Lit.toTokens (Lit.str ("\"foo\"".toList))).text = "\"foo\"".toList :=
  claim_C1_roundtrip ("\"foo\"".toList) (Lit.str ("\"foo\"".toList)) (by decide)

/-- The digit branch of the classifier, isolated. -/
theorem Lit_new_digit (t : List Char) (h1 : '0' ≤ charAt t 0) (h2 : charAt t 0 ≤ '9') :
    Lit.new t =
      match number_is_int t with
      | none => none
      | some true => some (Lit.int t)
      | some false =>
        if number_is_float t then some (Lit.float t) else some (Lit.verbatim t) := by
  obtain ⟨l1, l2, l3⟩ := digit_head_branches h1 h2
  unfold Lit.new
  rw [if_neg l1, if_neg l2, if_neg l3, if_pos ⟨h1, h2⟩]

/-- number_is_float, spelled out as the spec states it. -/
theorem number_is_float_spec (t : List Char) :
    number_is_float t = true ↔
      (t.contains '.' = true ∨
        ("0x".toList.isPrefixOf t = false ∧ "size".toList.isSuffixOf t = false ∧
          (t.contains 'e' = true ∨ t.contains 'E' = true))) := by
  unfold number_is_float
  split_ifs with hdot hps
  · exact ⟨fun _ => Or.inl hdot, fun _ => rfl⟩
  · simp only [Bool.false_eq_true, false_iff]
    simp only [Bool.or_eq_true] at hps
    rintro (h | ⟨hp2, hs2, _⟩)
    · exact hdot h
    · rcases hps with hp | hs
      · simp_all
      · simp_all
  · simp only [Bool.or_eq_true, not_or, Bool.not_eq_true] at hps
    simp only [Bool.or_eq_true]
    constructor
    · intro h
      exact Or.inr ⟨hps.1, hps.2, h⟩
    · rintro (h | ⟨_, _, h⟩)
      · exact absurd h hdot
      · exact h

/-- number_is_int when the text is float-shaped. -/
theorem number_is_int_float (t : List Char) (hf : number_is_float t = true) :
    number_is_int t = some false := by
  unfold number_is_int
  rw [if_pos hf]

/-- number_is_int when the text is not float-shaped. -/
theorem number_is_int_nonfloat (t : List Char) (hf : number_is_float t = false) :
    number_is_int t = (parse_lit_int t).map (fun r => r.isSome) := by
  unfold number_is_int
  rw [if_neg (by simp [hf])]

/-- C2: on digit-leading text, classification yields Float exactly when the
text contains a dot, or contains e/E while not 0x-prefixed and not
size-suffixed; otherwise classification attempts Integer (Int on a
successful parse, Verbatim on a no-value result, a propagated panic on an
out-of-base digit). -/
theorem claim_C2_float_dispatch (t : List Char) (h1 : '0' ≤ charAt t 0)
    (h2 : charAt t 0 ≤ '9') :
    (Lit.new t = some (Lit.float t) ↔
      (t.contains '.' = true ∨
        ("0x".toList.isPrefixOf t = false ∧ "size".toList.isSuffixOf t = false ∧
          (t.contains 'e' = true ∨ t.contains 'E' = true)))) ∧
    (number_is_float t = false →
      Lit.new t = (parse_lit_int t).map
        (fun r => if r.isSome then Lit.int t else Lit.verbatim t)) := by
  have hd := Lit_new_digit t h1 h2
  constructor
  · rw [← number_is_float_spec, hd]
    cases hfc : number_is_float t
    · rw [number_is_int_nonfloat t hfc]
      constructor
      · intro he
        exfalso
        cases hp : parse_lit_int t with
        | none => rw [hp] at he; simp at he
        | some r =>
          rw [hp] at he
          cases r <;> simp [hfc] at he
      · intro he
        exact absurd he (by simp [hfc])
    · rw [number_is_int_float t hfc]
      simp [hfc]
  · intro hf
    rw [hd, number_is_int_nonfloat t hf]
    cases hp : parse_lit_int t with
    | none => simp
    | some r => cases r <;> simp [hf]

theorem claim_C2_witness :
    Lit.new ("1.5".toList) = some (Lit.float ("1.5".toList)) :=
  (claim_C2_float_dispatch ("1.5".toList) (by decide) (by decide)).1.mpr (by decide)

/-- C3: digit-leading text that is not float-shaped and whose integer parse
returns no value (in particular on 64-bit overflow) classifies as Verbatim
carrying the original text, never as an error. -/
theorem claim_C3_overflow_verbatim (t : List Char) (h1 : '0' ≤ charAt t 0)
    (h2 : charAt t 0 ≤ '9') (hf : number_is_float t = false)
    (hp : parse_lit_int t = some none) :
    Lit.new t = some (Lit.verbatim t) := by
  rw [Lit_new_digit t h1 h2, number_is_int_nonfloat t hf, hp]
  simp [hf]

theorem claim_C3_witness :
    Lit.new ("18446744073709551616".toList) =
      some (Lit.verbatim ("18446744073709551616".toList)) :=
  claim_C3_overflow_verbatim ("18446744073709551616".toList)
    (by decide) (by decide) (by decide) (by decide)

/-- digitChar facts for every digit value. -/
theorem digitChar_prop : ∀ d, d < 10 →
    '0' ≤ digitChar d ∧ digitChar d ≤ '9' ∧ (digitChar d).toNat = 48 + d := by
  decide

/-- The accumulation loop skips an underscore in any base. -/
theorem loop_skip_underscore (base v : Nat) (s : List Char) :
    parse_lit_int_loop base v ('_' :: s) = parse_lit_int_loop base v s := by
  simp only [parse_lit_int_loop]
  rw [if_neg (by decide), if_neg (fun h => absurd h.1 (by decide)),
    if_neg (fun h => absurd h.1 (by decide)), if_pos trivial]

/-- The accumulation loop on an in-range decimal digit: checked multiply-add,
no value exactly when the new accumulator would exceed 64 bits. -/
theorem loop_digit_step (base v : Nat) (b : Char) (s : List Char)
    (hb1 : '0' ≤ b) (hb2 : b ≤ '9') (hd : b.toNat - 48 < base) :
    parse_lit_int_loop base v (b :: s) =
      (if 2 ^ 64 ≤ v * base + (b.toNat - 48) then some none
       else parse_lit_int_loop base (v * base + (b.toNat - 48)) s) := by
  simp only [parse_lit_int_loop]
  rw [if_pos ⟨hb1, hb2⟩, if_neg (Nat.not_le.mpr hd)]
  split_ifs with h1 h2 h3 <;> first | rfl | omega

/-- The loop on a digit character, when no overflow occurs. -/
theorem loop10_digitChar (w d : Nat) (t : List Char) (hd : d < 10)
    (hov : w * 10 + d < 2 ^ 64) :
    parse_lit_int_loop 10 w (digitChar d :: t) =
      parse_lit_int_loop 10 (w * 10 + d) t := by
  have hp := digitChar_prop d hd
  have htn : (digitChar d).toNat - 48 = d := by rw [hp.2.2]; omega
  rw [loop_digit_step 10 w (digitChar d) t hp.1 hp.2.1 (by rw [htn]; exact hd)]
  rw [htn, if_neg (Nat.not_le.mpr hov)]

/-- In base 10 the loop ends with no value at a dot. -/
theorem loop10_dot (v : Nat) (s : List Char) :
    parse_lit_int_loop 10 v ('.' :: s) = some none := rfl

/-- In base 10 the loop ends with no value at a lowercase e. -/
theorem loop10_e (v : Nat) (s : List Char) :
    parse_lit_int_loop 10 v ('e' :: s) = some none := rfl

/-- In base 10 the loop ends with no value at an uppercase E. -/
theorem loop10_E (v : Nat) (s : List Char) :
    parse_lit_int_loop 10 v ('E' :: s) = some none := rfl

/-- In base 10 the loop breaks (returning the accumulated value) at a u, the
first character of every unsigned suffix. -/
theorem loop10_break_u (v : Nat) (s : List Char) :
    parse_lit_int_loop 10 v ('u' :: s) = some (some v) := rfl

/-- In base 10 the loop breaks (returning the accumulated value) at an i, the
first character of every signed suffix. -/
theorem loop10_break_i (v : Nat) (s : List Char) :
    parse_lit_int_loop 10 v ('i' :: s) = some (some v) := rfl

/-- The rendering accumulator is just appended output. -/
theorem natToDecAux_append : ∀ (fuel n : Nat) (acc : List Char),
    natToDecAux fuel n acc = natToDecAux fuel n [] ++ acc := by
  intro fuel
  induction fuel with
  | zero =>
    intro n acc
    rfl
  | succ f ih =>
    intro n acc
    by_cases h : n < 10
    · simp [natToDecAux, h]
    · simp only [natToDecAux, if_neg h]
      rw [ih (n / 10) (digitChar (n % 10) :: acc), ih (n / 10) [digitChar (n % 10)]]
      simp

/-- Any fuel above n renders the same text. -/
theorem natToDecAux_fuel (n : Nat) : ∀ (f1 f2 : Nat), n < f1 → n < f2 →
    natToDecAux f1 n [] = natToDecAux f2 n [] := by
  induction n using Nat.strong_induction_on with
  | _ n ih =>
    intro f1 f2 h1 h2
    obtain ⟨a, rfl⟩ : ∃ a, f1 = a + 1 := ⟨f1 - 1, by omega⟩
    obtain ⟨b, rfl⟩ : ∃ b, f2 = b + 1 := ⟨f2 - 1, by omega⟩
    by_cases hn : n < 10
    · simp [natToDecAux, hn]
    · simp only [natToDecAux, if_neg hn]
      rw [natToDecAux_append a, natToDecAux_append b]
      rw [ih (n / 10) (by omega) a b (by omega) (by omega)]

/-- One-digit rendering. -/
theorem natToDec_lt10 (n : Nat) (h : n < 10) : natToDec n = [digitChar n] := by
  simp [natToDec, natToDecAux, h]

/-- Multi-digit rendering peels the least significant digit off the end. -/
theorem natToDec_ge10 (n : Nat) (h : 10 ≤ n) :
    natToDec n = natToDec (n / 10) ++ [digitChar (n % 10)] := by
  conv_lhs => rw [natToDec, natToDecAux]
  rw [if_neg (by omega : ¬ n < 10)]
  rw [natToDecAux_append n (n / 10) [digitChar (n % 10)]]
  rw [natToDecAux_fuel (n / 10) n (n / 10 + 1) (by omega) (by omega)]
  rfl

/-- Every character of a decimal rendering is a decimal digit. -/
theorem natToDec_digits (n : Nat) : ∀ c ∈ natToDec n, '0' ≤ c ∧ c ≤ '9' := by
  induction n using Nat.strong_induction_on with
  | _ n ih =>
    by_cases h : n < 10
    · rw [natToDec_lt10 n h]
      intro c hc
      simp at hc
      subst hc
      exact ⟨(digitChar_prop n h).1, (digitChar_prop n h).2.1⟩
    · rw [natToDec_ge10 n (by omega)]
      intro c hc
      rcases List.mem_append.mp hc with hc | hc
      · exact ih (n / 10) (by omega) c hc
      · simp at hc
        subst hc
        refine ⟨(digitChar_prop _ ?_).1, (digitChar_prop _ ?_).2.1⟩ <;> omega

/-- A decimal rendering is never empty. -/
theorem natToDec_ne_nil (n : Nat) : natToDec n ≠ [] := by
  by_cases h : n < 10
  · rw [natToDec_lt10 n h]
    simp
  · rw [natToDec_ge10 n (by omega)]
    simp

/-- Running the base-10 loop over a decimal rendering accumulates exactly the
rendered value (when the final accumulator fits in 64 bits). -/
theorem loop_natToDec (n : Nat) : ∀ (v : Nat) (t : List Char),
    v * 10 ^ (natToDec n).length + n < 2 ^ 64 →
    parse_lit_int_loop 10 v (natToDec n ++ t) =
      parse_lit_int_loop 10 (v * 10 ^ (natToDec n).length + n) t := by
  induction n using Nat.strong_induction_on with
  | _ n ih =>
    intro v t hov
    by_cases h : n < 10
    · rw [natToDec_lt10 n h] at hov ⊢
      simp only [List.length_cons, List.length_nil, zero_add, pow_one,
        List.cons_append, List.nil_append] at hov ⊢
      rw [loop10_digitChar v n t h hov]
    · have h10 : 10 ≤ n := by omega
      rw [natToDec_ge10 n h10] at hov ⊢
      rw [List.append_assoc]
      simp only [List.length_append, List.length_cons, List.length_nil, zero_add,
        List.singleton_append] at hov ⊢
      rw [pow_succ, ← mul_assoc] at hov ⊢
      have hov' : v * 10 ^ (natToDec (n / 10)).length + n / 10 < 2 ^ 64 := by
        generalize v * 10 ^ (natToDec (n / 10)).length = Y at hov ⊢
        omega
      rw [ih (n / 10) (by omega) v (digitChar (n % 10) :: t) hov']
      rw [loop10_digitChar (v * 10 ^ (natToDec (n / 10)).length + n / 10) (n % 10) t
        (by omega) (by generalize v * 10 ^ (natToDec (n / 10)).length = Y at hov ⊢; omega)]
      rw [show (v * 10 ^ (natToDec (n / 10)).length + n / 10) * 10 + n % 10 =
          v * 10 ^ (natToDec (n / 10)).length * 10 + n from by
        generalize v * 10 ^ (natToDec (n / 10)).length = Y
        omega]

/-- C4 counterexample: parse_lit_int("0x1.2") accumulates 1 in base 16 and
then BREAKS at the dot (the dot arm is guarded by base == 10), returning the
value 1 — it does not return no-value on meeting the dot, contrary to the
claim's unqualified reading. -/
theorem claim_C4_counterexample : parse_lit_int ("0x1.2".toList) = some (some 1) := by
  decide

/-- C4 (amended): parse_lit_int detects base 16/8/2 from 0x/0o/0b prefixes
and base 10 otherwise, skips underscores, accumulates digits by checked
multiply-add, and returns no value on 64-bit overflow or on meeting a dot or
e/E in base 10 only (in bases 16/8/2 a dot merely ends accumulation, as does
e in bases 8/2); parse_lit_int("0x_1_0") = 16. -/
theorem claim_C4_parse_int_amended :
    (∀ s : List Char, parse_lit_int ('0' :: 'x' :: s) = parse_lit_int_loop 16 0 s) ∧
    (∀ s : List Char, parse_lit_int ('0' :: 'o' :: s) = parse_lit_int_loop 8 0 s) ∧
    (∀ s : List Char, parse_lit_int ('0' :: 'b' :: s) = parse_lit_int_loop 2 0 s) ∧
    (∀ (b : Char) (s : List Char), '0' ≤ b → b ≤ '9' → b ≠ '0' →
      parse_lit_int (b :: s) = parse_lit_int_loop 10 0 (b :: s)) ∧
    (∀ s : List Char, charAt s 0 ≠ 'x' → charAt s 0 ≠ 'o' → charAt s 0 ≠ 'b' →
      parse_lit_int ('0' :: s) = parse_lit_int_loop 10 0 ('0' :: s)) ∧
    (∀ (base v : Nat) (s : List Char),
      parse_lit_int_loop base v ('_' :: s) = parse_lit_int_loop base v s) ∧
    (∀ (base v : Nat) (b : Char) (s : List Char), '0' ≤ b → b ≤ '9' →
      b.toNat - 48 < base →
      parse_lit_int_loop base v (b :: s) =
        (if 2 ^ 64 ≤ v * base + (b.toNat - 48) then some none
         else parse_lit_int_loop base (v * base + (b.toNat - 48)) s)) ∧
    (∀ (v : Nat) (s : List Char), parse_lit_int_loop 10 v ('.' :: s) = some none) ∧
    (∀ (v : Nat) (s : List Char), parse_lit_int_loop 10 v ('e' :: s) = some none) ∧
    (∀ (v : Nat) (s : List Char), parse_lit_int_loop 10 v ('E' :: s) = some none) ∧
    (∀ (v : Nat) (s : List Char), parse_lit_int_loop 16 v ('.' :: s) = some (some v)) ∧
    parse_lit_int ("0x_1_0".toList) = some (some 16) := by
  refine ⟨fun s => rfl, fun s => rfl, fun s => rfl, ?_, ?_,
    loop_skip_underscore, loop_digit_step, loop10_dot, loop10_e, loop10_E,
    fun v s => rfl, by decide⟩
  · intro b s hb1 hb2 hb0
    unfold parse_lit_int
    simp only [charAt_cons_zero, charAt_cons_succ]
    rw [if_neg (fun h => hb0 h.1), if_neg (fun h => hb0 h.1),
      if_neg (fun h => hb0 h.1), if_pos ⟨hb1, hb2⟩]
  · intro s hx ho hb
    unfold parse_lit_int
    simp only [charAt_cons_zero, charAt_cons_succ]
    rw [if_neg (fun h => hx h.2), if_neg (fun h => ho h.2),
      if_neg (fun h => hb h.2), if_pos (by decide)]

theorem claim_C4_witness :
    parse_lit_int_loop 10 0 ['5'] =
      (if 2 ^ 64 ≤ 0 * 10 + ('5'.toNat - 48) then some none
       else parse_lit_int_loop 10 (0 * 10 + ('5'.toNat - 48)) []) :=
  claim_C4_parse_int_amended.2.2.2.2.2.2.1 10 0 '5' [] (by decide) (by decide)
    (by decide)

/-- C5: in cooked string decoding, a backslash immediately followed by a line
break (LF or bare CR) swallows all following whitespace up to the next
non-whitespace character and contributes nothing to the decoded value;
decoding "a\<LF>   b" yields ab. -/
theorem claim_C5_line_continuation :
    (∀ (fuel : Nat) (rest : List Char),
      parse_lit_str_cooked_loop (fuel + 1) ('\\' :: '\n' :: rest) =
        parse_lit_str_cooked_loop fuel (rest.dropWhile rustIsWhitespace)) ∧
    (∀ (fuel : Nat) (rest : List Char),
      parse_lit_str_cooked_loop (fuel + 1) ('\\' :: '\r' :: rest) =
        parse_lit_str_cooked_loop fuel (rest.dropWhile rustIsWhitespace)) ∧
    parse_lit_str_cooked ("\"a\\\n   b\"".toList) = some ("ab".toList) :=
  ⟨fun fuel rest => rfl, fun fuel rest => rfl, by decide⟩

/-- backslash_x on two hex digit characters. -/
theorem backslash_x_hex (h0 h1 : Char) (d0 d1 : Nat) (rest : List Char)
    (hh0 : hexVal h0.toNat = some d0) (hh1 : hexVal h1.toNat = some d1) :
    backslash_x (h0 :: h1 :: rest) = some (0x10 * d0 + d1, rest) := by
  simp [backslash_x, hh0, hh1]

/-- backslash_x on two hex digit bytes. -/
theorem backslash_x_bytes_hex (b0 b1 : Nat) (d0 d1 : Nat) (rest : List Nat)
    (hh0 : hexVal b0 = some d0) (hh1 : hexVal b1 = some d1) :
    backslash_x_bytes (b0 :: b1 :: rest) = some (0x10 * d0 + d1, rest) := by
  simp [backslash_x_bytes, hh0, hh1]

/-- C6: a \xNN escape whose two hex digits give value v decodes in the text
contexts (cooked string, char literal) exactly when v ≤ 0x80, yielding the
character with code v; in the byte contexts (byte string, byte literal) every
value 0..255 is accepted and yields that byte. -/
theorem claim_C6_x_escape :
    (∀ (h0 h1 : Char) (d0 d1 : Nat),
      hexVal h0.toNat = some d0 → hexVal h1.toNat = some d1 →
      (∀ (fuel : Nat) (rest : List Char),
        parse_lit_str_cooked_loop (fuel + 1) ('\\' :: 'x' :: h0 :: h1 :: rest) =
          (if 0x10 * d0 + d1 ≤ 0x80 then
            (parse_lit_str_cooked_loop fuel rest).map
              (fun out => Char.ofNat (0x10 * d0 + d1) :: out)
          else none)) ∧
      (∀ rest : List Char,
        parse_lit_char ('\'' :: '\\' :: 'x' :: h0 :: h1 :: rest) =
          (if 0x10 * d0 + d1 ≤ 0x80 then
            (if rest = ['\''] then some (Char.ofNat (0x10 * d0 + d1)) else none)
          else none))) ∧
    (∀ (b0 b1 : Nat) (d0 d1 : Nat), hexVal b0 = some d0 → hexVal b1 = some d1 →
      (∀ (fuel : Nat) (rest : List Nat),
        parse_lit_byte_str_cooked_loop (fuel + 1) (92 :: 120 :: b0 :: b1 :: rest) =
          (parse_lit_byte_str_cooked_loop fuel rest).map
            (fun out => (0x10 * d0 + d1) :: out)) ∧
      (∀ rest : List Nat,
        parse_lit_byte (98 :: 39 :: 92 :: 120 :: b0 :: b1 :: rest) =
          (if byteAt rest 0 = 39 then some (0x10 * d0 + d1) else none))) := by
  constructor
  · intro h0 h1 d0 d1 hh0 hh1
    constructor
    · intro fuel rest
      have hshape : parse_lit_str_cooked_loop (fuel + 1) ('\\' :: 'x' :: h0 :: h1 :: rest) =
          (match backslash_x (h0 :: h1 :: rest) with
           | some (byte, rest3) =>
             if byte ≤ 0x80 then
               (parse_lit_str_cooked_loop fuel rest3).map
                 (fun out => Char.ofNat byte :: out)
             else none
           | none => none) := rfl
      rw [hshape, backslash_x_hex h0 h1 d0 d1 rest hh0 hh1]
    · intro rest
      have hshape : parse_lit_char ('\'' :: '\\' :: 'x' :: h0 :: h1 :: rest) =
          (match backslash_x (h0 :: h1 :: rest) with
           | some (byte, rest3) =>
             if byte ≤ 0x80 then
               (if rest3 = ['\''] then some (Char.ofNat byte) else none)
             else none
           | none => none) := rfl
      rw [hshape, backslash_x_hex h0 h1 d0 d1 rest hh0 hh1]
  · intro b0 b1 d0 d1 hh0 hh1
    constructor
    · intro fuel rest
      have hshape : parse_lit_byte_str_cooked_loop (fuel + 1) (92 :: 120 :: b0 :: b1 :: rest) =
          (match backslash_x_bytes (b0 :: b1 :: rest) with
           | some (byte, rest3) =>
             (parse_lit_byte_str_cooked_loop fuel rest3).map (fun out => byte :: out)
           | none => none) := rfl
      rw [hshape, backslash_x_bytes_hex b0 b1 d0 d1 rest hh0 hh1]
    · intro rest
      have hshape : parse_lit_byte (98 :: 39 :: 92 :: 120 :: b0 :: b1 :: rest) =
          (match backslash_x_bytes (b0 :: b1 :: rest) with
           | some (byte, rest3) => if byteAt rest3 0 = 39 then some byte else none
           | none => none) := rfl
      rw [hshape, backslash_x_bytes_hex b0 b1 d0 d1 rest hh0 hh1]

theorem claim_C6_witness :
    parse_lit_byte_str_cooked_loop 2 (92 :: 120 :: 102 :: 102 :: [34]) =
      (parse_lit_byte_str_cooked_loop 1 [34]).map (fun out => (0x10 * 15 + 15) :: out) :=
  ((claim_C6_x_escape.2 102 102 15 15 (by decide) (by decide)).1 1 [34])

/-- The backslash_u digit loop over a run of hex digits closed by a brace:
it accumulates their value and leaves the brace in place. -/
theorem backslash_u_digits_hexlist : ∀ (ds : List Char) (fuel ch : Nat) (rest : List Char),
    (∀ c ∈ ds, (hexVal c.toNat).isSome = true) → ds.length ≤ fuel →
    backslash_u_digits fuel ch (ds ++ '}' :: rest) =
      some (ds.foldl (fun a c => 0x10 * a + (hexVal c.toNat).getD 0) ch, '}' :: rest) := by
  intro ds
  induction ds with
  | nil =>
    intro fuel ch rest _ _
    cases fuel with
    | zero => rfl
    | succ k =>
      have h125 : hexVal (125 : Nat) = none := by decide
      simp [backslash_u_digits, h125]
  | cons d ds ih =>
    intro fuel ch rest hhex hlen
    cases fuel with
    | zero => simp at hlen
    | succ k =>
      obtain ⟨v, hv⟩ := Option.isSome_iff_exists.mp (hhex d (List.mem_cons_self d ds))
      simp only [List.cons_append, backslash_u_digits, hv]
      rw [ih k (0x10 * ch + v) rest (fun c hc => hhex c (List.mem_cons_of_mem d hc))
        (by simpa using hlen)]
      simp [hv]

/-- C7 counterexample: the escape \u{} with ZERO hex digits between the
braces decodes successfully to U+0000, while the claim requires 1 to 6
digits for success. -/
theorem claim_C7_counterexample :
    parse_lit_str ("\"\\u{}\"".toList) = some [Char.ofNat 0] := by
  decide

/-- C7 (amended): a \u{...} escape whose braces hold a run of 0 to 6 hex
digits decodes successfully exactly when the digits' value is a valid Unicode
scalar value, yielding that character (zero digits yield U+0000); a run of
seven hex digits fails. -/
theorem claim_C7_unicode_amended :
    (∀ (ds : List Char) (rest : List Char),
      (∀ c ∈ ds, (hexVal c.toNat).isSome = true) → ds.length ≤ 6 →
      backslash_u ('{' :: ds ++ '}' :: rest) =
        (if Nat.isValidChar (hexDigitsVal ds) then some (Char.ofNat (hexDigitsVal ds), rest)
         else none)) ∧
    (∀ (e0 e1 e2 e3 e4 e5 e6 : Char) (rest : List Char),
      (hexVal e0.toNat).isSome = true → (hexVal e1.toNat).isSome = true →
      (hexVal e2.toNat).isSome = true → (hexVal e3.toNat).isSome = true →
      (hexVal e4.toNat).isSome = true → (hexVal e5.toNat).isSome = true →
      (hexVal e6.toNat).isSome = true →
      backslash_u ('{' :: e0 :: e1 :: e2 :: e3 :: e4 :: e5 :: e6 :: rest) = none) := by
  have hshape : ∀ t : List Char, backslash_u ('{' :: t) =
      (match backslash_u_digits 6 0 t with
       | some (ch, s1) =>
         match s1 with
         | c2 :: s2 =>
           if c2 = '}' then
             (if Nat.isValidChar ch then some (Char.ofNat ch, s2) else none)
           else none
         | [] => none
       | none => none) := fun t => rfl
  constructor
  · intro ds rest hhex hlen
    rw [show ('{' :: ds ++ '}' :: rest) = ('{' :: (ds ++ '}' :: rest)) from rfl, hshape]
    rw [backslash_u_digits_hexlist ds 6 0 rest hhex hlen]
    simp [hexDigitsVal]
  · intro e0 e1 e2 e3 e4 e5 e6 rest h0 h1 h2 h3 h4 h5 h6
    obtain ⟨v0, hv0⟩ := Option.isSome_iff_exists.mp h0
    obtain ⟨v1, hv1⟩ := Option.isSome_iff_exists.mp h1
    obtain ⟨v2, hv2⟩ := Option.isSome_iff_exists.mp h2
    obtain ⟨v3, hv3⟩ := Option.isSome_iff_exists.mp h3
    obtain ⟨v4, hv4⟩ := Option.isSome_iff_exists.mp h4
    obtain ⟨v5, hv5⟩ := Option.isSome_iff_exists.mp h5
    obtain ⟨v6, hv6⟩ := Option.isSome_iff_exists.mp h6
    have hne : e6 ≠ '}' := by
      intro he
      rw [he, show hexVal '}'.toNat = none from by decide] at hv6
      simp at hv6
    rw [hshape]
    simp only [backslash_u_digits, hv0, hv1, hv2, hv3, hv4, hv5]
    simp [hne]

theorem claim_C7_witness :
    backslash_u ('{' :: ['4', '1'] ++ '}' :: []) =
      (if Nat.isValidChar (hexDigitsVal ['4', '1'])
       then some (Char.ofNat (hexDigitsVal ['4', '1']), [])
       else none) :=
  claim_C7_unicode_amended.1 ['4', '1'] [] (by decide) (by decide)

/-- String loop: closing quote at the end of input. -/
theorem strLoop_endq (fuel : Nat) :
    parse_lit_str_cooked_loop (fuel + 1) ['"'] = some [] := rfl

/-- String loop: escaped quote. -/
theorem strLoop_escq (fuel : Nat) (rest : List Char) :
    parse_lit_str_cooked_loop (fuel + 1) ('\\' :: '"' :: rest) =
      (parse_lit_str_cooked_loop fuel rest).map (fun o => '"' :: o) := rfl

/-- String loop: escaped backslash. -/
theorem strLoop_escb (fuel : Nat) (rest : List Char) :
    parse_lit_str_cooked_loop (fuel + 1) ('\\' :: '\\' :: rest) =
      (parse_lit_str_cooked_loop fuel rest).map (fun o => '\\' :: o) := rfl

/-- String loop: escaped carriage return. -/
theorem strLoop_escr (fuel : Nat) (rest : List Char) :
    parse_lit_str_cooked_loop (fuel + 1) ('\\' :: 'r' :: rest) =
      (parse_lit_str_cooked_loop fuel rest).map (fun o => '\r' :: o) := rfl

/-- String loop: escaped line feed. -/
theorem strLoop_escn (fuel : Nat) (rest : List Char) :
    parse_lit_str_cooked_loop (fuel + 1) ('\\' :: 'n' :: rest) =
      (parse_lit_str_cooked_loop fuel rest).map (fun o => '\n' :: o) := rfl

/-- String loop: escaped tab. -/
theorem strLoop_esct (fuel : Nat) (rest : List Char) :
    parse_lit_str_cooked_loop (fuel + 1) ('\\' :: 't' :: rest) =
      (parse_lit_str_cooked_loop fuel rest).map (fun o => '\t' :: o) := rfl

/-- String loop: escaped NUL. -/
theorem strLoop_esc0 (fuel : Nat) (rest : List Char) :
    parse_lit_str_cooked_loop (fuel + 1) ('\\' :: '0' :: rest) =
      (parse_lit_str_cooked_loop fuel rest).map (fun o => Char.ofNat 0 :: o) := rfl

/-- String loop: an unescaped ordinary character copies through. -/
theorem strLoop_default (fuel : Nat) (c : Char) (rest : List Char)
    (h1 : c ≠ '"') (h2 : c ≠ '\\') (h3 : c ≠ '\r') :
    parse_lit_str_cooked_loop (fuel + 1) (c :: rest) =
      (parse_lit_str_cooked_loop fuel rest).map (fun o => c :: o) := by
  simp only [parse_lit_str_cooked_loop]
  rw [if_neg h1, if_neg h2, if_neg h3]

/-- Byte loop: closing quote at the end of input. -/
theorem byteLoop_endq (fuel : Nat) :
    parse_lit_byte_str_cooked_loop (fuel + 1) [34] = some [] := rfl

/-- Byte loop: escaped quote. -/
theorem byteLoop_escq (fuel : Nat) (rest : List Nat) :
    parse_lit_byte_str_cooked_loop (fuel + 1) (92 :: 34 :: rest) =
      (parse_lit_byte_str_cooked_loop fuel rest).map (fun o => 34 :: o) := rfl

/-- Byte loop: escaped backslash. -/
theorem byteLoop_escb (fuel : Nat) (rest : List Nat) :
    parse_lit_byte_str_cooked_loop (fuel + 1) (92 :: 92 :: rest) =
      (parse_lit_byte_str_cooked_loop fuel rest).map (fun o => 92 :: o) := rfl

/-- Byte loop: escaped carriage return. -/
theorem byteLoop_escr (fuel : Nat) (rest : List Nat) :
    parse_lit_byte_str_cooked_loop (fuel + 1) (92 :: 114 :: rest) =
      (parse_lit_byte_str_cooked_loop fuel rest).map (fun o => 13 :: o) := rfl

/-- Byte loop: escaped line feed. -/
theorem byteLoop_escn (fuel : Nat) (rest : List Nat) :
    parse_lit_byte_str_cooked_loop (fuel + 1) (92 :: 110 :: rest) =
      (parse_lit_byte_str_cooked_loop fuel rest).map (fun o => 10 :: o) := rfl

/-- Byte loop: escaped tab. -/
theorem byteLoop_esct (fuel : Nat) (rest : List Nat) :
    parse_lit_byte_str_cooked_loop (fuel + 1) (92 :: 116 :: rest) =
      (parse_lit_byte_str_cooked_loop fuel rest).map (fun o => 9 :: o) := rfl

/-- Byte loop: escaped NUL. -/
theorem byteLoop_esc0 (fuel : Nat) (rest : List Nat) :
    parse_lit_byte_str_cooked_loop (fuel + 1) (92 :: 48 :: rest) =
      (parse_lit_byte_str_cooked_loop fuel rest).map (fun o => 0 :: o) := rfl

/-- Byte loop: an unescaped ordinary byte copies through. -/
theorem byteLoop_default (fuel : Nat) (c : Nat) (rest : List Nat)
    (h1 : c ≠ 34) (h2 : c ≠ 92) (h3 : c ≠ 13) :
    parse_lit_byte_str_cooked_loop (fuel + 1) (c :: rest) =
      (parse_lit_byte_str_cooked_loop fuel rest).map (fun o => c :: o) := by
  simp only [parse_lit_byte_str_cooked_loop]
  rw [if_neg h1, if_neg h2, if_neg h3]

/-- Decoding an escaped value followed by the closing quote recovers the
value. -/
theorem strLoop_escapeSeq : ∀ (v : List Char) (fuel : Nat),
    (escapeSeq escapeCharCooked v).length < fuel →
    parse_lit_str_cooked_loop fuel (escapeSeq escapeCharCooked v ++ ['"']) = some v := by
  intro v
  induction v with
  | nil =>
    intro fuel hf
    obtain ⟨k, rfl⟩ : ∃ k, fuel = k + 1 := ⟨fuel - 1, by omega⟩
    exact strLoop_endq k
  | cons c v ih =>
    intro fuel hf
    obtain ⟨k, rfl⟩ : ∃ k, fuel = k + 1 := ⟨fuel - 1, by omega⟩
    simp only [escapeSeq, List.length_append] at hf
    simp only [escapeSeq, List.append_assoc]
    by_cases e1 : c = '"'
    · subst e1
      rw [show escapeCharCooked '"' = ['\\', '"'] from rfl] at hf ⊢
      simp only [List.length_cons, List.length_nil] at hf
      simp only [List.cons_append, List.nil_append]
      rw [strLoop_escq, ih k (by omega)]
      rfl
    by_cases e2 : c = '\\'
    · subst e2
      rw [show escapeCharCooked '\\' = ['\\', '\\'] from rfl] at hf ⊢
      simp only [List.length_cons, List.length_nil] at hf
      simp only [List.cons_append, List.nil_append]
      rw [strLoop_escb, ih k (by omega)]
      rfl
    by_cases e3 : c = '\r'
    · subst e3
      rw [show escapeCharCooked '\r' = ['\\', 'r'] from rfl] at hf ⊢
      simp only [List.length_cons, List.length_nil] at hf
      simp only [List.cons_append, List.nil_append]
      rw [strLoop_escr, ih k (by omega)]
      rfl
    by_cases e4 : c = '\n'
    · subst e4
      rw [show escapeCharCooked '\n' = ['\\', 'n'] from rfl] at hf ⊢
      simp only [List.length_cons, List.length_nil] at hf
      simp only [List.cons_append, List.nil_append]
      rw [strLoop_escn, ih k (by omega)]
      rfl
    by_cases e5 : c = '\t'
    · subst e5
      rw [show escapeCharCooked '\t' = ['\\', 't'] from rfl] at hf ⊢
      simp only [List.length_cons, List.length_nil] at hf
      simp only [List.cons_append, List.nil_append]
      rw [strLoop_esct, ih k (by omega)]
      rfl
    by_cases e6 : c = Char.ofNat 0
    · subst e6
      rw [show escapeCharCooked (Char.ofNat 0) = ['\\', '0'] from rfl] at hf ⊢
      simp only [List.length_cons, List.length_nil] at hf
      simp only [List.cons_append, List.nil_append]
      rw [strLoop_esc0, ih k (by omega)]
      rfl
    have hesc : escapeCharCooked c = [c] := by
      unfold escapeCharCooked
      rw [if_neg e1, if_neg e2, if_neg e3, if_neg e4, if_neg e5, if_neg e6]
    rw [hesc] at hf ⊢
    simp only [List.length_cons, List.length_nil] at hf
    simp only [List.cons_append, List.nil_append]
    rw [strLoop_default k c _ e1 e2 e3, ih k (by omega)]
    rfl

/-- Byte twin of strLoop_escapeSeq. -/
theorem byteLoop_escapeSeq : ∀ (w : List Nat) (fuel : Nat),
    (escapeSeq escapeByteCooked w).length < fuel →
    parse_lit_byte_str_cooked_loop fuel (escapeSeq escapeByteCooked w ++ [34]) = some w := by
  intro w
  induction w with
  | nil =>
    intro fuel hf
    obtain ⟨k, rfl⟩ : ∃ k, fuel = k + 1 := ⟨fuel - 1, by omega⟩
    exact byteLoop_endq k
  | cons c w ih =>
    intro fuel hf
    obtain ⟨k, rfl⟩ : ∃ k, fuel = k + 1 := ⟨fuel - 1, by omega⟩
    simp only [escapeSeq, List.length_append] at hf
    simp only [escapeSeq, List.append_assoc]
    by_cases e1 : c = 34
    · subst e1
      rw [show escapeByteCooked 34 = [92, 34] from rfl] at hf ⊢
      simp only [List.length_cons, List.length_nil] at hf
      simp only [List.cons_append, List.nil_append]
      rw [byteLoop_escq, ih k (by omega)]
      rfl
    by_cases e2 : c = 92
    · subst e2
      rw [show escapeByteCooked 92 = [92, 92] from rfl] at hf ⊢
      simp only [List.length_cons, List.length_nil] at hf
      simp only [List.cons_append, List.nil_append]
      rw [byteLoop_escb, ih k (by omega)]
      rfl
    by_cases e3 : c = 13
    · subst e3
      rw [show escapeByteCooked 13 = [92, 114] from rfl] at hf ⊢
      simp only [List.length_cons, List.length_nil] at hf
      simp only [List.cons_append, List.nil_append]
      rw [byteLoop_escr, ih k (by omega)]
      rfl
    by_cases e4 : c = 10
    · subst e4
      rw [show escapeByteCooked 10 = [92, 110] from rfl] at hf ⊢
      simp only [List.length_cons, List.length_nil] at hf
      simp only [List.cons_append, List.nil_append]
      rw [byteLoop_escn, ih k (by omega)]
      rfl
    by_cases e5 : c = 9
    · subst e5
      rw [show escapeByteCooked 9 = [92, 116] from rfl] at hf ⊢
      simp only [List.length_cons, List.length_nil] at hf
      simp only [List.cons_append, List.nil_append]
      rw [byteLoop_esct, ih k (by omega)]
      rfl
    by_cases e6 : c = 0
    · subst e6
      rw [show escapeByteCooked 0 = [92, 48] from rfl] at hf ⊢
      simp only [List.length_cons, List.length_nil] at hf
      simp only [List.cons_append, List.nil_append]
      rw [byteLoop_esc0, ih k (by omega)]
      rfl
    have hesc : escapeByteCooked c = [c] := by
      unfold escapeByteCooked
      rw [if_neg e1, if_neg e2, if_neg e3, if_neg e4, if_neg e5, if_neg e6]
    rw [hesc] at hf ⊢
    simp only [List.length_cons, List.length_nil] at hf
    simp only [List.cons_append, List.nil_append]
    rw [byteLoop_default k c _ e1 e2 e3, ih k (by omega)]
    rfl

/-- C8: constructing a string literal from any value and decoding the stored
token returns the value; likewise for byte-string literals from any byte
sequence. -/
theorem claim_C8_escape_inverse (v : List Char) (w : List Nat) (_hw : ∀ b ∈ w, b < 256) :
    LitStr.value (LitStr.new v) = some v ∧
    LitByteStr.value (LitByteStr.new w) = some w := by
  constructor
  · have h1 : LitStr.value (LitStr.new v) =
        parse_lit_str_cooked_loop ((escapeSeq escapeCharCooked v ++ ['"']).length + 1)
          (escapeSeq escapeCharCooked v ++ ['"']) := rfl
    rw [h1]
    exact strLoop_escapeSeq v _ (by simp only [List.length_append, List.length_cons, List.length_nil]; omega)
  · have h1 : LitByteStr.value (LitByteStr.new w) =
        parse_lit_byte_str_cooked_loop ((escapeSeq escapeByteCooked w ++ [34]).length + 1)
          (escapeSeq escapeByteCooked w ++ [34]) := rfl
    rw [h1]
    exact byteLoop_escapeSeq w _ (by simp only [List.length_append, List.length_cons, List.length_nil]; omega)

theorem claim_C8_witness :
    LitStr.value (LitStr.new ("foo".toList)) = some ("foo".toList) ∧
    LitByteStr.value (LitByteStr.new [0, 34, 92, 255]) = some [0, 34, 92, 255] :=
  claim_C8_escape_inverse ("foo".toList) [0, 34, 92, 255] (by decide)

/-- C9: parsing from the token cursor returns the classified literal when the
next unit is a literal token, a Boolean when it is a word spelling exactly
true or false, and otherwise the recoverable parse_error — which carries no
rest-cursor, so the caller resumes at the unchanged position. -/
theorem claim_C9_parse_shim :
    (∀ (t : List Char) (rest : List CursorTok) (l : Lit), Lit.new t = some l →
      Lit.parse (CursorTok.literal t :: rest) = some (PResult.ok (l, rest))) ∧
    (∀ rest : List CursorTok,
      Lit.parse (CursorTok.term ("true".toList) :: rest) =
        some (PResult.ok (Lit.boolLit true, rest))) ∧
    (∀ rest : List CursorTok,
      Lit.parse (CursorTok.term ("false".toList) :: rest) =
        some (PResult.ok (Lit.boolLit false, rest))) ∧
    (∀ (t : List Char) (rest : List CursorTok),
      t ≠ "true".toList → t ≠ "false".toList →
      Lit.parse (CursorTok.term t :: rest) = some PResult.err) ∧
    (∀ rest : List CursorTok, Lit.parse (CursorTok.other :: rest) = some PResult.err) ∧
    Lit.parse [] = some PResult.err := by
  refine ⟨?_, fun rest => rfl, fun rest => rfl, ?_, fun rest => rfl, rfl⟩
  · intro t rest l h
    simp [Lit.parse, cursorLiteral, h]
  · intro t rest h1 h2
    have hshape : Lit.parse (CursorTok.term t :: rest) =
        (if t = "true".toList then some (PResult.ok (Lit.boolLit true, rest))
         else if t = "false".toList then some (PResult.ok (Lit.boolLit false, rest))
         else some PResult.err) := rfl
    rw [hshape, if_neg h1, if_neg h2]

theorem claim_C9_witness :
    Lit.parse (CursorTok.literal ("\"foo\"".toList) :: []) =
      some (PResult.ok (Lit.str ("\"foo\"".toList), [])) :=
  claim_C9_parse_shim.1 ("\"foo\"".toList) [] (Lit.str ("\"foo\"".toList)) (by decide)

/-- parse_lit_int on a decimal rendering followed by non-base-prefix text is
the accumulation loop started at the rendered value. -/
theorem parse_lit_int_natToDec (m : Nat) (t : List Char) (hm : m < 2 ^ 64)
    (hx : charAt t 0 ≠ 'x') (ho : charAt t 0 ≠ 'o') (hb : charAt t 0 ≠ 'b') :
    parse_lit_int (natToDec m ++ t) = parse_lit_int_loop 10 m t := by
  obtain ⟨c, rest, hEq⟩ : ∃ c rest, natToDec m = c :: rest := by
    cases hnd : natToDec m with
    | nil => exact absurd hnd (natToDec_ne_nil m)
    | cons c rest => exact ⟨c, rest, rfl⟩
  have hmem : c ∈ natToDec m := by
    rw [hEq]
    exact List.mem_cons_self c rest
  have hcd := natToDec_digits m c hmem
  have h1 : charAt (natToDec m ++ t) 0 = c := by
    rw [hEq]
    rfl
  have h2 : charAt (natToDec m ++ t) 1 ≠ 'x' ∧ charAt (natToDec m ++ t) 1 ≠ 'o' ∧
      charAt (natToDec m ++ t) 1 ≠ 'b' := by
    rw [hEq]
    cases rest with
    | nil => exact ⟨hx, ho, hb⟩
    | cons c1 r1 =>
      have hmem1 : c1 ∈ natToDec m := by
        rw [hEq]
        simp
      have hd1 := natToDec_digits m c1 hmem1
      refine ⟨fun he => ?_, fun he => ?_, fun he => ?_⟩ <;>
        (rw [show charAt ((c :: c1 :: r1) ++ t) 1 = c1 from rfl] at he; rw [he] at hd1;
          exact absurd hd1.2 (by decide))
  unfold parse_lit_int
  rw [if_neg (fun hc => h2.1 hc.2), if_neg (fun hc => h2.2.1 hc.2),
    if_neg (fun hc => h2.2.2 hc.2), if_pos (by rw [h1]; exact hcd)]
  rw [loop_natToDec m 0 t (by simpa using hm)]
  simp

/-- LitInt::value of a decimal rendering with an unsigned suffix. -/
theorem LitInt_value_u (m : Nat) (hm : m < 2 ^ 64) (t : List Char) :
    LitInt.value (natToDec m ++ 'u' :: t) = some m := by
  unfold LitInt.value
  rw [parse_lit_int_natToDec m ('u' :: t) hm (by rw [charAt_cons_zero]; decide)
    (by rw [charAt_cons_zero]; decide) (by rw [charAt_cons_zero]; decide)]
  rw [loop10_break_u]

/-- LitInt::value of a decimal rendering with a signed suffix. -/
theorem LitInt_value_i (m : Nat) (hm : m < 2 ^ 64) (t : List Char) :
    LitInt.value (natToDec m ++ 'i' :: t) = some m := by
  unfold LitInt.value
  rw [parse_lit_int_natToDec m ('i' :: t) hm (by rw [charAt_cons_zero]; decide)
    (by rw [charAt_cons_zero]; decide) (by rw [charAt_cons_zero]; decide)]
  rw [loop10_break_i]

/-- Rendering a cast-to-Int natural is the natural's decimal rendering. -/
theorem intToDec_natCast (n : Nat) : intToDec (n : Int) = natToDec n := by
  unfold intToDec
  rw [if_neg (by omega)]
  simp

/-- C10 counterexample: LitInt::new(40000, i16) casts 40000 to the i16 value
-25536, so the stored token text is "-25536i16"; LitInt::value runs
parse_lit_int on it, which hits its unreachable arm on the minus sign, so
value() fails instead of returning 40000 mod 2^16 = 40000. -/
theorem claim_C10_counterexample :
    LitInt.value (LitInt.new 40000 IntSuffix.i16) ≠ some (40000 % 2 ^ 16) := by
  decide

/-- C10 (amended): for unsigned sized suffixes the constructor truncates to
the suffix width and value() decodes the truncated value with no range error
(e.g. u8 at 300 yields 44); for signed sized suffixes the same holds exactly
when the truncated value is non-negative in the signed width — otherwise the
stored text is negative and value() fails; the 128-bit suffixes store the
full value. -/
theorem claim_C10_truncation_amended (v : Nat) (hv : v < 2 ^ 64) :
    LitInt.value (LitInt.new v IntSuffix.u8) = some (v % 2 ^ 8) ∧
    LitInt.value (LitInt.new v IntSuffix.u16) = some (v % 2 ^ 16) ∧
    LitInt.value (LitInt.new v IntSuffix.u32) = some (v % 2 ^ 32) ∧
    LitInt.value (LitInt.new v IntSuffix.u64) = some v ∧
    LitInt.value (LitInt.new v IntSuffix.u128) = some v ∧
    (v % 2 ^ 8 < 2 ^ 7 → LitInt.value (LitInt.new v IntSuffix.i8) = some (v % 2 ^ 8)) ∧
    (v % 2 ^ 16 < 2 ^ 15 → LitInt.value (LitInt.new v IntSuffix.i16) = some (v % 2 ^ 16)) ∧
    (v % 2 ^ 32 < 2 ^ 31 → LitInt.value (LitInt.new v IntSuffix.i32) = some (v % 2 ^ 32)) ∧
    (v < 2 ^ 63 → LitInt.value (LitInt.new v IntSuffix.i64) = some v) ∧
    LitInt.value (LitInt.new v IntSuffix.i128) = some v := by
  refine ⟨?_, ?_, ?_, ?_, ?_, ?_, ?_, ?_, ?_, ?_⟩
  · show LitInt.value (Literal.intText ((v % 2 ^ 8 : Nat) : Int) ("u8".toList)) = _
    unfold Literal.intText
    rw [intToDec_natCast]
    exact LitInt_value_u (v % 2 ^ 8) (by omega) ['8']
  · show LitInt.value (Literal.intText ((v % 2 ^ 16 : Nat) : Int) ("u16".toList)) = _
    unfold Literal.intText
    rw [intToDec_natCast]
    exact LitInt_value_u (v % 2 ^ 16) (by omega) ['1', '6']
  · show LitInt.value (Literal.intText ((v % 2 ^ 32 : Nat) : Int) ("u32".toList)) = _
    unfold Literal.intText
    rw [intToDec_natCast]
    exact LitInt_value_u (v % 2 ^ 32) (by omega) ['3', '2']
  · show LitInt.value (Literal.intText ((v : Nat) : Int) ("u64".toList)) = _
    unfold Literal.intText
    rw [intToDec_natCast]
    exact LitInt_value_u v hv ['6', '4']
  · show LitInt.value (Literal.intText ((v : Nat) : Int) ("u128".toList)) = _
    unfold Literal.intText
    rw [intToDec_natCast]
    exact LitInt_value_u v hv ['1', '2', '8']
  · intro h
    show LitInt.value (Literal.intText (asSigned 8 v) ("i8".toList)) = _
    unfold Literal.intText asSigned
    rw [if_pos (by omega), intToDec_natCast]
    exact LitInt_value_i (v % 2 ^ 8) (by omega) ['8']
  · intro h
    show LitInt.value (Literal.intText (asSigned 16 v) ("i16".toList)) = _
    unfold Literal.intText asSigned
    rw [if_pos (by omega), intToDec_natCast]
    exact LitInt_value_i (v % 2 ^ 16) (by omega) ['1', '6']
  · intro h
    show LitInt.value (Literal.intText (asSigned 32 v) ("i32".toList)) = _
    unfold Literal.intText asSigned
    rw [if_pos (by omega), intToDec_natCast]
    exact LitInt_value_i (v % 2 ^ 32) (by omega) ['3', '2']
  · intro h
    show LitInt.value (Literal.intText (asSigned 64 v) ("i64".toList)) = _
    unfold Literal.intText asSigned
    rw [if_pos (by omega), intToDec_natCast]
    have hmod : v % 2 ^ 64 = v := Nat.mod_eq_of_lt hv
    rw [hmod]
    exact LitInt_value_i v hv ['6', '4']
  · show LitInt.value (Literal.intText ((v : Nat) : Int) ("i128".toList)) = _
    unfold Literal.intText
    rw [intToDec_natCast]
    exact LitInt_value_i v hv ['1', '2', '8']

theorem claim_C10_witness :
    LitInt.value (LitInt.new 300 IntSuffix.u8) = some (300 % 2 ^ 8) :=
  (claim_C10_truncation_amended 300 (by norm_num)).1
